import Mathlib

/-!
Verification of the OCR Studio chunking/compression pipeline
(app/page.tsx: constants, `compressImageForOcr`, `createPdfChunk`,
`splitPdfForOcr`, `submitFileToOcr`, `processOCR`, and the surrounding
React state handlers `onDrop` / result commits).

The shallow embedding models browser-side capabilities as oracles:
- the PDF serializer (`PDFDocument.save`) is a byte-size oracle
  `cs : Nat → Nat → Nat` giving the serialized size of the chunk copying
  pages `[start, endExclusive)` of the loaded source document;
- the canvas JPEG encoder is a size oracle `enc : ℚ → ℚ → Nat` giving the
  encoded blob size at a given scale and quality (decode, 2d-context and
  encode failures abort the run in the source and are outside the oracle);
- the network boundary is a function from the index of the fetch call in
  the run to the decoded HTTP response.

The two loops of `splitPdfForOcr` are written with an explicit fuel
parameter; the termination theorem shows the fuel used by the top-level
wrapper is never exhausted.
-/

/-! ### Size-budget constants (page.tsx lines 386-393) -/

def MAX_ERROR_BODY_LENGTH : Nat := 500

def OCR_IMAGE_LIMIT_BYTES : Nat := 10 * 1024 * 1024

def OCR_PDF_LIMIT_BYTES : Nat := 50 * 1024 * 1024

def OCR_PDF_PAGE_LIMIT : Nat := 100

def DROPZONE_MAX_BYTES : Nat := 200 * 1024 * 1024

def PDF_CHUNK_TARGET_BYTES : Nat := 45 * 1024 * 1024

def PDF_CHUNK_MAX_PAGES : Nat := 40

/-! ### Files and names -/

/-- A browser `File` as the pipeline sees it: name, byte size, MIME type.
(`lastModified` is wall-clock time and is not modeled.) -/
structure SFile where
  name : String
  size : Nat
  mime : String
  deriving DecidableEq

/-- Strip a trailing `.ext`-style extension from a character list, mirroring
the regex `\.[^/.]+$`: a final dot followed by one or more characters none
of which is a dot or a slash. -/
def stripLastExt (cs : List Char) : List Char :=
  let rev := cs.reverse
  let tailPart := rev.takeWhile (fun c => !(c == '.') && !(c == '/'))
  match rev.drop tailPart.length with
  | '.' :: rest => if tailPart.isEmpty then cs else rest.reverse
  | _ => cs

/-- `replaceExtension` (page.tsx line 397): drop the old extension, append
the new one. -/
def replaceExtension (name ext : String) : String :=
  String.mk (stripLastExt name.data) ++ "." ++ ext

/-! ### PDF splitting (`createPdfChunk`, `splitPdfForOcr`) -/

/-- One PDF chunk: the page range it covers, its 1-based part number, its
serialized byte size and its file name. -/
structure Chunk where
  startPage : Nat
  endPage : Nat
  part : Nat
  size : Nat
  name : String
  deriving DecidableEq

/-- `createPdfChunk` (page.tsx lines 464-485): copy pages
`[startPage, endPageExclusive)` into a fresh document and serialize it.
The serializer is the oracle `cs`. -/
def createPdfChunk (cs : Nat → Nat → Nat) (fileName : String)
    (startPage endPageExclusive part : Nat) : Chunk :=
  { startPage := startPage
    endPage := endPageExclusive
    part := part
    size := cs startPage endPageExclusive
    name := replaceExtension fileName ("part-" ++ toString part ++ ".pdf") }

/-- The inner shrink loop of `splitPdfForOcr` (page.tsx lines 500-503):
while the serialized chunk exceeds the target budget and still has more
than one page, shrink the end page by one and re-serialize. Written with
fuel; `none` means the fuel ran out. -/
def shrinkLoop (fuel : Nat) (cs : Nat → Nat → Nat) (fileName : String)
    (cursor e part : Nat) : Option Chunk :=
  match fuel with
  | 0 => none
  | Nat.succ fuel' =>
    let chunk := createPdfChunk cs fileName cursor e part
    if PDF_CHUNK_TARGET_BYTES < chunk.size ∧ 1 < e - cursor then
      shrinkLoop fuel' cs fileName cursor (e - 1) part
    else
      some chunk

/-- The error message thrown when a single-page chunk still exceeds the
hard PDF byte limit (page.tsx lines 505-509). -/
def splitFailMessage : String :=
  "A single PDF page exceeds the OCR API file size limit. Please reduce page resolution and try again."

/-- The outer loop of `splitPdfForOcr` (page.tsx lines 496-514): take up to
`PDF_CHUNK_MAX_PAGES` pages, shrink to the byte budget, fail if a lone page
exceeds the hard limit, else accept the chunk and advance the cursor to the
accepted end page. Written with fuel; `none` means the fuel ran out. -/
def splitLoop (fuel : Nat) (cs : Nat → Nat → Nat) (fileName : String)
    (pageCount cursor part : Nat) (acc : List Chunk) :
    Option (Except String (List Chunk)) :=
  match fuel with
  | 0 => none
  | Nat.succ fuel' =>
    if cursor < pageCount then
      let e := min (cursor + PDF_CHUNK_MAX_PAGES) pageCount
      match shrinkLoop (e - cursor) cs fileName cursor e part with
      | none => none
      | some chunk =>
        if OCR_PDF_LIMIT_BYTES < chunk.size then
          some (Except.error splitFailMessage)
        else
          splitLoop fuel' cs fileName pageCount chunk.endPage (part + 1)
            (acc ++ [chunk])
    else
      some (Except.ok acc)

/-- `splitPdfForOcr` (page.tsx lines 487-517). The top-level wrapper runs
the outer loop with fuel `pageCount + 1`, which the termination theorem
shows is never exhausted (the `none` arm is dead code and is mapped to the
split failure message). -/
def splitPdfForOcr (cs : Nat → Nat → Nat) (fileName : String)
    (pageCount : Nat) : Except String (List Chunk × Nat) :=
  match splitLoop (pageCount + 1) cs fileName pageCount 0 1 [] with
  | some (Except.ok chunks) => Except.ok (chunks, pageCount)
  | some (Except.error e) => Except.error e
  | none => Except.error splitFailMessage

/-! ### The partition predicate -/

/-- `Covers l a b`: the chunks of `l`, in list order, tile the page range
`[a, b)` exactly: each chunk starts where the previous ended, is nonempty,
and the last one ends at `b`. -/
def Covers : List Chunk → Nat → Nat → Prop
  | [], a, b => a = b
  | c :: rest, a, b => c.startPage = a ∧ a < c.endPage ∧ Covers rest c.endPage b

def coversDecidable : (l : List Chunk) → (a b : Nat) → Decidable (Covers l a b)
  | [], a, b => inferInstanceAs (Decidable (a = b))
  | c :: rest, a, b =>
    have : Decidable (Covers rest c.endPage b) := coversDecidable rest c.endPage b
    inferInstanceAs (Decidable (_ ∧ _ ∧ _))

instance (l : List Chunk) (a b : Nat) : Decidable (Covers l a b) :=
  coversDecidable l a b

/-- Whether chunk `c` covers page `p`. -/
def coversPage (p : Nat) (c : Chunk) : Bool :=
  decide (c.startPage ≤ p) && decide (p < c.endPage)

/-! ### Helper lemmas about the split loops -/

/-- A chunk accepted by the split loop: within the target budget, or a
single page within the hard limit. -/
def ChunkBudgetOk (c : Chunk) : Prop :=
  c.size ≤ PDF_CHUNK_TARGET_BYTES ∨
    (c.endPage = c.startPage + 1 ∧ c.size ≤ OCR_PDF_LIMIT_BYTES)

theorem shrinkLoop_spec (cs : Nat → Nat → Nat) (fn : String) :
    ∀ (fuel cursor e part : Nat) (c : Chunk),
      shrinkLoop fuel cs fn cursor e part = some c → cursor < e →
      c.startPage = cursor ∧ cursor < c.endPage ∧ c.endPage ≤ e ∧
      c.part = part ∧ c.size = cs cursor c.endPage ∧
      (c.size ≤ PDF_CHUNK_TARGET_BYTES ∨ c.endPage = cursor + 1) := by
  intro fuel
  induction fuel with
  | zero =>
    intro cursor e part c h _
    simp [shrinkLoop] at h
  | succ fuel ih =>
    intro cursor e part c h hce
    simp only [shrinkLoop] at h
    split at h
    case isTrue hcond =>
      have hce' : cursor < e - 1 := by omega
      obtain ⟨h1, h2, h3, h4, h5, h6⟩ := ih cursor (e - 1) part c h hce'
      exact ⟨h1, h2, by omega, h4, h5, h6⟩
    case isFalse hcond =>
      injection h with h
      subst h
      refine ⟨rfl, hce, Nat.le_refl e, rfl, rfl, ?_⟩
      by_cases hsz : PDF_CHUNK_TARGET_BYTES < cs cursor e
      · right
        have hle : ¬ 1 < e - cursor := fun hgt => hcond ⟨hsz, hgt⟩
        show e = cursor + 1
        omega
      · left
        exact Nat.le_of_not_lt hsz

theorem splitLoop_ok_spec (cs : Nat → Nat → Nat) (fn : String) (pageCount : Nat) :
    ∀ (fuel cursor part : Nat) (acc out : List Chunk),
      cursor ≤ pageCount →
      splitLoop fuel cs fn pageCount cursor part acc = some (Except.ok out) →
      ∃ tail, out = acc ++ tail ∧ Covers tail cursor pageCount ∧
        ∀ c ∈ tail, ChunkBudgetOk c := by
  intro fuel
  induction fuel with
  | zero =>
    intro cursor part acc out _ h
    simp [splitLoop] at h
  | succ fuel ih =>
    intro cursor part acc out hcur h
    simp only [splitLoop] at h
    split at h
    case isTrue hlt =>
      split at h
      case h_1 => exact absurd h (by simp)
      case h_2 chunk heq =>
        have hce : cursor < min (cursor + PDF_CHUNK_MAX_PAGES) pageCount := by
          simp only [PDF_CHUNK_MAX_PAGES]
          omega
        obtain ⟨hs1, hs2, hs3, hs4, hs5, hs6⟩ :=
          shrinkLoop_spec cs fn _ cursor _ part chunk heq hce
        split at h
        case isTrue => exact absurd h (by simp)
        case isFalse hhard =>
          have hend : chunk.endPage ≤ pageCount := by
            have : min (cursor + PDF_CHUNK_MAX_PAGES) pageCount ≤ pageCount :=
              Nat.min_le_right _ _
            omega
          obtain ⟨tail, ht1, ht2, ht3⟩ := ih chunk.endPage (part + 1)
            (acc ++ [chunk]) out hend h
          refine ⟨chunk :: tail, ?_, ⟨hs1, hs2, ht2⟩, ?_⟩
          · simp [ht1]
          · intro c hc
            rcases List.mem_cons.mp hc with hc | hc
            · rw [hc]
              by_cases hsz : chunk.size ≤ PDF_CHUNK_TARGET_BYTES
              · exact Or.inl hsz
              · refine Or.inr ⟨?_, Nat.le_of_not_lt hhard⟩
                rcases hs6 with h6 | h6
                · exact absurd h6 hsz
                · rw [h6, hs1]
            · exact ht3 c hc
    case isFalse hge =>
      injection h with h
      injection h with h
      refine ⟨[], by simp [h], ?_, by simp⟩
      show cursor = pageCount
      omega

theorem splitLoop_error_msg (cs : Nat → Nat → Nat) (fn : String) (pageCount : Nat) :
    ∀ (fuel cursor part : Nat) (acc : List Chunk) (msg : String),
      splitLoop fuel cs fn pageCount cursor part acc = some (Except.error msg) →
      msg = splitFailMessage := by
  intro fuel
  induction fuel with
  | zero =>
    intro cursor part acc msg h
    simp [splitLoop] at h
  | succ fuel ih =>
    intro cursor part acc msg h
    simp only [splitLoop] at h
    split at h
    case isTrue =>
      split at h
      case h_1 => exact absurd h (by simp)
      case h_2 chunk heq =>
        split at h
        case isTrue =>
          injection h with h
          injection h with h
          exact h.symm
        case isFalse => exact ih _ _ _ _ h
    case isFalse =>
      injection h with h
      exact absurd h (by simp)

theorem shrinkLoop_isSome (cs : Nat → Nat → Nat) (fn : String) :
    ∀ (fuel cursor e part : Nat), cursor < e → e - cursor ≤ fuel →
      (shrinkLoop fuel cs fn cursor e part).isSome := by
  intro fuel
  induction fuel with
  | zero =>
    intro cursor e part h1 h2
    omega
  | succ fuel ih =>
    intro cursor e part h1 h2
    simp only [shrinkLoop]
    split
    case isTrue hcond => exact ih cursor (e - 1) part (by omega) (by omega)
    case isFalse => simp

theorem splitLoop_fuel_sufficient (cs : Nat → Nat → Nat) (fn : String) :
    ∀ (fuel pageCount cursor part : Nat) (acc : List Chunk),
      pageCount - cursor < fuel →
      (splitLoop fuel cs fn pageCount cursor part acc).isSome := by
  intro fuel
  induction fuel with
  | zero =>
    intro pageCount cursor part acc h
    omega
  | succ fuel ih =>
    intro pageCount cursor part acc h
    simp only [splitLoop]
    split
    case isTrue hlt =>
      have hce : cursor < min (cursor + PDF_CHUNK_MAX_PAGES) pageCount := by
        simp only [PDF_CHUNK_MAX_PAGES]
        omega
      have hsome := shrinkLoop_isSome cs fn
        (min (cursor + PDF_CHUNK_MAX_PAGES) pageCount - cursor) cursor
        (min (cursor + PDF_CHUNK_MAX_PAGES) pageCount) part hce (Nat.le_refl _)
      cases heq : shrinkLoop (min (cursor + PDF_CHUNK_MAX_PAGES) pageCount - cursor)
          cs fn cursor (min (cursor + PDF_CHUNK_MAX_PAGES) pageCount) part with
      | none => rw [heq] at hsome; simp at hsome
      | some chunk =>
        obtain ⟨_, hs2, _, _, _, _⟩ :=
          shrinkLoop_spec cs fn _ cursor _ part chunk heq hce
        show (if OCR_PDF_LIMIT_BYTES < chunk.size then
            some (Except.error splitFailMessage)
          else splitLoop fuel cs fn pageCount chunk.endPage (part + 1)
            (acc ++ [chunk])).isSome = true
        split
        case isTrue => simp
        case isFalse => exact ih pageCount chunk.endPage (part + 1) _ (by omega)
    case isFalse => simp

/-! ### Page-coverage counting -/

theorem covers_countP_zero :
    ∀ (l : List Chunk) (a b p : Nat), Covers l a b → p < a →
      List.countP (coversPage p) l = 0 := by
  intro l
  induction l with
  | nil => intro a b p _ _; simp
  | cons c rest ih =>
    intro a b p hcov hp
    obtain ⟨h1, h2, h3⟩ := hcov
    rw [List.countP_cons]
    have hc : coversPage p c = false := by
      simp only [coversPage, Bool.and_eq_false_iff, decide_eq_false_iff_not]
      left
      omega
    rw [hc]
    simp [ih c.endPage b p h3 (by omega)]

theorem covers_countP_one :
    ∀ (l : List Chunk) (a b p : Nat), Covers l a b → a ≤ p → p < b →
      List.countP (coversPage p) l = 1 := by
  intro l
  induction l with
  | nil =>
    intro a b p hcov h1 h2
    simp only [Covers] at hcov
    omega
  | cons c rest ih =>
    intro a b p hcov h1 h2
    obtain ⟨hc1, hc2, hc3⟩ := hcov
    rw [List.countP_cons]
    by_cases hin : p < c.endPage
    · have hc : coversPage p c = true := by
        simp only [coversPage, Bool.and_eq_true, decide_eq_true_eq]
        omega
      rw [hc, covers_countP_zero rest c.endPage b p hc3 hin]
      simp
    · have hc : coversPage p c = false := by
        simp only [coversPage, Bool.and_eq_false_iff, decide_eq_false_iff_not]
        right
        omega
      rw [hc]
      simp [ih c.endPage b p hc3 (by omega) h2]

/-! ### Claim theorems: the PDF splitter -/

/-- Serialization-size oracle for the split witnesses: a multi-page chunk
serializes to 50,000,000 bytes (over the 45 MiB target), a single page to
100 bytes. -/
def witnessChunkSize : Nat → Nat → Nat :=
  fun s e => if e - s ≤ 1 then 100 else 50000000

/-- C1: for every PDF successfully processed by `splitPdfForOcr`, the
chunks' page ranges form a strictly increasing, contiguous, non-overlapping
partition of `[0, totalPages)` (each chunk starts where the previous ended
and is nonempty — `Covers`), and every page below the total page count is
covered by exactly one chunk. -/
theorem splitPdfForOcr_partition (cs : Nat → Nat → Nat) (fn : String)
    (pageCount n : Nat) (chunks : List Chunk)
    (h : splitPdfForOcr cs fn pageCount = Except.ok (chunks, n)) :
    n = pageCount ∧ Covers chunks 0 pageCount ∧
      ∀ p, p < pageCount → List.countP (coversPage p) chunks = 1 := by
  unfold splitPdfForOcr at h
  split at h
  case h_1 chs heq =>
    simp only [Except.ok.injEq, Prod.mk.injEq] at h
    obtain ⟨h1, h2⟩ := h
    obtain ⟨tail, ht1, ht2, _⟩ :=
      splitLoop_ok_spec cs fn pageCount (pageCount + 1) 0 1 [] chs
        (Nat.zero_le _) heq
    rw [List.nil_append] at ht1
    subst ht1
    rw [← h1]
    exact ⟨h2.symm, ht2, fun p hp => covers_countP_one chs 0 pageCount p ht2 (Nat.zero_le _) hp⟩
  case h_2 => exact absurd h (by simp)
  case h_3 => exact absurd h (by simp)

theorem splitPdfForOcr_partition_witness :
    Covers [(⟨0, 1, 1, 100, "doc.part-1.pdf"⟩ : Chunk),
            (⟨1, 2, 2, 100, "doc.part-2.pdf"⟩ : Chunk)] 0 2 ∧
    List.countP (coversPage 1)
      [(⟨0, 1, 1, 100, "doc.part-1.pdf"⟩ : Chunk),
       (⟨1, 2, 2, 100, "doc.part-2.pdf"⟩ : Chunk)] = 1 :=
  ⟨(splitPdfForOcr_partition witnessChunkSize "doc.pdf" 2 2 _ rfl).2.1,
   (splitPdfForOcr_partition witnessChunkSize "doc.pdf" 2 2 _ rfl).2.2 1 (by decide)⟩

/-- Serialization-size oracle under which even a single page exceeds the
hard 50 MiB PDF limit. -/
def oversizedChunkSize : Nat → Nat → Nat := fun _ _ => 60000000

/-- C2: every chunk of a successful `splitPdfForOcr` run is within the
45 MiB target budget, or is a single page within the hard 50 MiB limit;
and when the operation fails it fails with the single-page-too-large
message (an `Except.error`, carrying no chunks). -/
theorem splitPdfForOcr_budget (cs : Nat → Nat → Nat) (fn : String)
    (pageCount : Nat) :
    (∀ chunks n, splitPdfForOcr cs fn pageCount = Except.ok (chunks, n) →
      ∀ c ∈ chunks, c.size ≤ PDF_CHUNK_TARGET_BYTES ∨
        (c.endPage = c.startPage + 1 ∧ c.size ≤ OCR_PDF_LIMIT_BYTES)) ∧
    (∀ msg, splitPdfForOcr cs fn pageCount = Except.error msg →
      msg = splitFailMessage) := by
  constructor
  · intro chunks n h c hc
    unfold splitPdfForOcr at h
    split at h
    case h_1 chs heq =>
      simp only [Except.ok.injEq, Prod.mk.injEq] at h
      obtain ⟨h1, _⟩ := h
      obtain ⟨tail, ht1, _, ht3⟩ :=
        splitLoop_ok_spec cs fn pageCount (pageCount + 1) 0 1 [] chs
          (Nat.zero_le _) heq
      rw [List.nil_append] at ht1
      rw [← h1, ht1] at hc
      exact ht3 c hc
    case h_2 => exact absurd h (by simp)
    case h_3 => exact absurd h (by simp)
  · intro msg h
    unfold splitPdfForOcr at h
    split at h
    case h_1 => exact absurd h (by simp)
    case h_2 e heq =>
      injection h with h
      rw [← h]
      exact splitLoop_error_msg cs fn pageCount (pageCount + 1) 0 1 [] e heq
    case h_3 =>
      injection h with h
      exact h.symm

theorem splitPdfForOcr_budget_witness :
    ((⟨0, 1, 1, 100, "doc.part-1.pdf"⟩ : Chunk).size ≤ PDF_CHUNK_TARGET_BYTES ∨
      ((⟨0, 1, 1, 100, "doc.part-1.pdf"⟩ : Chunk).endPage =
          (⟨0, 1, 1, 100, "doc.part-1.pdf"⟩ : Chunk).startPage + 1 ∧
        (⟨0, 1, 1, 100, "doc.part-1.pdf"⟩ : Chunk).size ≤ OCR_PDF_LIMIT_BYTES)) ∧
    splitFailMessage = splitFailMessage :=
  ⟨(splitPdfForOcr_budget witnessChunkSize "doc.pdf" 2).1
      [⟨0, 1, 1, 100, "doc.part-1.pdf"⟩, ⟨1, 2, 2, 100, "doc.part-2.pdf"⟩] 2 rfl
      ⟨0, 1, 1, 100, "doc.part-1.pdf"⟩ (by decide),
   (splitPdfForOcr_budget oversizedChunkSize "doc.pdf" 1).2 splitFailMessage rfl⟩

/-- C6: `splitPdfForOcr` terminates on every loadable PDF. The outer loop,
run with fuel `pageCount + 1` exactly as the top-level wrapper does,
always completes (`isSome`): the inner shrink loop strictly decreases the
chunk's end page within fuel `e - cursor`, and each accepted chunk
advances the cursor by at least one page, so the `none` (out-of-fuel) arm
of `splitPdfForOcr` is unreachable. -/
theorem splitPdfForOcr_terminates (cs : Nat → Nat → Nat) (fn : String)
    (pageCount : Nat) :
    (splitLoop (pageCount + 1) cs fn pageCount 0 1 []).isSome :=
  splitLoop_fuel_sufficient cs fn (pageCount + 1) pageCount 0 1 []
    (by omega)

/-! ### String helpers (JS `includes` / `startsWith` / `slice`) -/

/-- `leadsWith pre l`: `pre` is an initial segment of `l`. -/
def leadsWith : List Char → List Char → Bool
  | [], _ => true
  | _ :: _, [] => false
  | a :: as, b :: bs => a == b && leadsWith as bs

/-- `occursIn needle l`: `needle` occurs contiguously inside `l`. -/
def occursIn (needle : List Char) : List Char → Bool
  | [] => needle.isEmpty
  | b :: bs => leadsWith needle (b :: bs) || occursIn needle bs

/-- JS `haystack.includes(needle)`. -/
def strIncludes (hay needle : String) : Bool :=
  occursIn needle.data hay.data

/-- JS `s.startsWith(pre)`. -/
def strStarts (s pre : String) : Bool :=
  leadsWith pre.data s.data

/-- JS `s.slice(0, n)` (on characters). -/
def strTake (s : String) (n : Nat) : String :=
  String.mk (s.data.take n)

/-- JS `a || b` on an optional string field: the fallback applies when the
field is absent or the empty string (falsy). -/
def strOrElse (o : Option String) (dflt : String) : String :=
  match o with
  | none => dflt
  | some s => if s.data.isEmpty then dflt else s

/-! ### The chunk submitter (`submitFileToOcr`) -/

/-- The `{ text?, error? }` shape `OcrApiResponse` (page.tsx line 387). -/
structure OcrApiResponse where
  text : Option String
  error : Option String
  deriving DecidableEq

/-- A decoded HTTP response as `submitFileToOcr` consumes it:
`response.ok`, `response.status`, the content-type header, the body text,
and the outcome of `JSON.parse` on the body (`none` when parsing throws). -/
structure HttpResponse where
  ok : Bool
  status : Nat
  contentType : String
  bodyText : String
  parsed : Option OcrApiResponse
  deriving DecidableEq

/-- `submitFileToOcr` (page.tsx lines 532-562), with the fetch abstracted:
the argument is the decoded response to the POST of the file. Non-JSON or
unparseable bodies become a truncated `Non-JSON response` diagnostic; a
non-ok status throws the structured error (or a generic message) plus an
HTTP status hint; on ok the `text` field is returned, defaulting to the
empty string. -/
def submitFileToOcr (resp : HttpResponse) : Except String String :=
  let isJson := strIncludes resp.contentType "application/json"
  let nonJsonError :=
    if MAX_ERROR_BODY_LENGTH < resp.bodyText.length then
      "Non-JSON response: " ++ strTake resp.bodyText MAX_ERROR_BODY_LENGTH ++ "…"
    else
      "Non-JSON response: " ++ resp.bodyText
  let data : OcrApiResponse :=
    if isJson then
      match resp.parsed with
      | some d => d
      | none => ⟨none, some nonJsonError⟩
    else ⟨none, some nonJsonError⟩
  if resp.ok = false then
    Except.error (strOrElse data.error "OCR processing failed" ++
      " (HTTP " ++ toString resp.status ++ ")")
  else
    Except.ok (strOrElse data.text "")

/-! ### Image compression (`compressImageForOcr`) -/

/-- Scale factors tried by `compressImageForOcr` (page.tsx line 434). -/
def scales : List ℚ := [1, 9/10, 8/10, 7/10, 6/10]

/-- Encode qualities tried at each scale (page.tsx line 435). -/
def qualities : List ℚ := [9/10, 8/10, 7/10, 6/10, 5/10]

/-- The inner quality loop (page.tsx lines 448-456): the first quality at
this scale whose encoded blob is within the image budget. -/
def findQuality (enc : ℚ → ℚ → Nat) (s : ℚ) : List ℚ → Option ℚ
  | [] => none
  | q :: rest =>
    if enc s q ≤ OCR_IMAGE_LIMIT_BYTES then some q else findQuality enc s rest

/-- The outer scale loop (page.tsx lines 437-457). -/
def findCombo (enc : ℚ → ℚ → Nat) : List ℚ → Option (ℚ × ℚ)
  | [] => none
  | s :: rest =>
    match findQuality enc s qualities with
    | some q => some (s, q)
    | none => findCombo enc rest

/-- The error message when no combination fits (page.tsx lines 459-461). -/
def compressFailMessage : String :=
  "Image is still too large after compression. Please resize it manually and try again."

/-- `compressImageForOcr` (page.tsx lines 428-462): identity for files
within the image budget; otherwise the first (scale, quality) combination
— scales outer, qualities inner — whose encoded size fits, re-encoded as a
JPEG named after the original; failure when none fits. The canvas
dimensions are a function of the scale alone, so the encoder oracle takes
(scale, quality). -/
def compressImageForOcr (enc : ℚ → ℚ → Nat) (f : SFile) : Except String SFile :=
  if f.size ≤ OCR_IMAGE_LIMIT_BYTES then
    Except.ok f
  else
    match findCombo enc scales with
    | some (s, q) =>
      Except.ok ⟨replaceExtension f.name "jpg", enc s q, "image/jpeg"⟩
    | none => Except.error compressFailMessage

/-! ### The orchestrator (`processOCR`) -/

/-- JS `Array.join` with a blank-line separator. -/
def joinSep : List String → String
  | [] => ""
  | [t] => t
  | t :: ts => t ++ "\n\n" ++ joinSep ts

/-- The merge step (page.tsx line 614):
`chunkTexts.filter(Boolean).join("\n\n")` — empty fragments dropped, the
rest joined with a blank line. -/
def mergeChunkTexts (ts : List String) : String :=
  joinSep (ts.filter (fun s => !s.data.isEmpty))

/-- The browser `File` produced for a chunk. -/
def chunkFiles (chunks : List Chunk) : List SFile :=
  chunks.map (fun c => ⟨c.name, c.size, "application/pdf"⟩)

/-- The status message shown before submitting chunk `i` (0-based) of
`total` (page.tsx line 606). -/
def chunkStatusMsg (i total : Nat) : String :=
  "Processing PDF chunk " ++ toString (i + 1) ++ "/" ++ toString total ++ "..."

/-- The outcome of the sequential chunk loop: statuses set, files
submitted, and either all texts in order or the first failure. -/
structure RunChunksOut where
  statuses : List String
  submitted : List SFile
  result : Except String (List String)

/-- The sequential chunk loop of `processOCR` (page.tsx lines 604-612):
set the status, submit chunk `i`, stop at the first failure. The 250 ms
inter-chunk pause is real time and is not modeled. -/
def runChunks (net : Nat → HttpResponse) (total : Nat) :
    Nat → List SFile → RunChunksOut
  | _, [] => ⟨[], [], Except.ok []⟩
  | i, c :: rest =>
    match submitFileToOcr (net i) with
    | Except.error e => ⟨[chunkStatusMsg i total], [c], Except.error e⟩
    | Except.ok t =>
      let out := runChunks net total (i + 1) rest
      ⟨chunkStatusMsg i total :: out.statuses, c :: out.submitted,
        out.result.map (fun ts => t :: ts)⟩

/-- The state effects of one `processOCR` run (page.tsx lines 529-625):
the status messages set (in order), the files submitted to the boundary
(in order), the text committed by `setText` on success and the error
committed by `setError` on failure. The `finally` block always resets
`isProcessing` and clears the status, so neither is recorded here. -/
structure RunResult where
  statuses : List String
  submissions : List SFile
  text : Option String
  error : Option String

/-- The capabilities one run consumes: the canvas encoder, what
`PDFDocument.load(...).getPageCount()` returns for the active file, the
chunk serializer, and the decoded response to the i-th fetch of the run. -/
structure Oracles where
  enc : ℚ → ℚ → Nat
  pageCount : Nat
  chunkSize : Nat → Nat → Nat
  net : Nat → HttpResponse

/-- One full `processOCR` run (page.tsx lines 529-625) as a function of
the oracles and the active file, recording its state effects.
(`PDFDocument.load` and image decode failures, which would surface as
thrown errors, are outside the oracles.) -/
def processOCR (o : Oracles) (f : SFile) : RunResult :=
  if strStarts f.mime "image/" then
    match compressImageForOcr o.enc f with
    | Except.error e => ⟨["Preparing file..."], [], none, some e⟩
    | Except.ok g =>
      let imgMsg := if g.size = f.size then "Processing image..."
        else "Image compressed. Running OCR..."
      match submitFileToOcr (o.net 0) with
      | Except.ok t => ⟨["Preparing file...", imgMsg], [g], some t, none⟩
      | Except.error e => ⟨["Preparing file...", imgMsg], [g], none, some e⟩
  else if f.mime = "application/pdf" then
    if f.size ≤ OCR_PDF_LIMIT_BYTES ∧ o.pageCount ≤ OCR_PDF_PAGE_LIMIT then
      match submitFileToOcr (o.net 0) with
      | Except.ok t =>
        ⟨["Preparing file...", "Processing PDF..."], [f], some t, none⟩
      | Except.error e =>
        ⟨["Preparing file...", "Processing PDF..."], [f], none, some e⟩
    else
      match splitPdfForOcr o.chunkSize f.name o.pageCount with
      | Except.error e =>
        ⟨["Preparing file...", "Splitting PDF into OCR-safe chunks..."],
          [], none, some e⟩
      | Except.ok (chunks, pageCount) =>
        let countMsgs := if OCR_PDF_PAGE_LIMIT < pageCount then
            ["PDF has " ++ toString pageCount ++ " pages. Processing " ++
              toString chunks.length ++ " chunks..."]
          else []
        let out := runChunks o.net chunks.length 0 (chunkFiles chunks)
        match out.result with
        | Except.ok texts =>
          ⟨["Preparing file...", "Splitting PDF into OCR-safe chunks..."] ++
              countMsgs ++ out.statuses,
            out.submitted, some (mergeChunkTexts texts), none⟩
        | Except.error e =>
          ⟨["Preparing file...", "Splitting PDF into OCR-safe chunks..."] ++
              countMsgs ++ out.statuses,
            out.submitted, none, some e⟩
  else
    ⟨["Preparing file..."], [], none,
      some "Unsupported file type. Please upload an image or PDF."⟩

/-! ### Component state and run completion -/

/-- The component state a completing run touches (page.tsx lines 520-525):
the active file, the output text, the error banner. -/
structure UIState where
  file : Option SFile
  text : String
  error : Option String
  deriving DecidableEq

/-- `onDrop` (page.tsx lines 627-642): a newly selected file becomes the
active one; the previous text and error are cleared. -/
def onDrop (st : UIState) (f : SFile) : UIState :=
  { st with file := some f, error := none, text := "" }

/-- What a completing run does to the shared state (page.tsx lines 576-
577, 589-590, 614 and 620): `setText` with its result on success,
`setError` with the message on failure — applied unconditionally, with no
comparison of the run's file against the currently active one. -/
def applyRunCompletion (st : UIState) (r : RunResult) : UIState :=
  { st with
    text := match r.text with | some t => t | none => st.text
    error := match r.error with | some e => some e | none => st.error }

/-! ### Claim theorems: compressor identity and empty-text handling -/

/-- C9: an image file already within the 10 MiB image budget passes
through `compressImageForOcr` unchanged — no decode or re-encode happens,
the very same file value is returned. -/
theorem compressImageForOcr_identity (enc : ℚ → ℚ → Nat) (f : SFile)
    (h : f.size ≤ OCR_IMAGE_LIMIT_BYTES) :
    compressImageForOcr enc f = Except.ok f := by
  unfold compressImageForOcr
  rw [if_pos h]

theorem compressImageForOcr_identity_witness :
    compressImageForOcr (fun _ _ => 0) ⟨"a.png", 5, "image/png"⟩ =
      Except.ok ⟨"a.png", 5, "image/png"⟩ :=
  compressImageForOcr_identity (fun _ _ => 0) ⟨"a.png", 5, "image/png"⟩
    (by decide)

/-- C10: a successful (ok, JSON) boundary response whose parsed body lacks
a `text` field or carries the falsy empty string makes `submitFileToOcr`
return the empty string rather than fail; and the merge filter drops such
empty fragments instead of treating them as errors. -/
theorem submitFileToOcr_empty_text (resp : HttpResponse) (d : OcrApiResponse)
    (h1 : resp.ok = true)
    (h2 : strIncludes resp.contentType "application/json" = true)
    (h3 : resp.parsed = some d)
    (h4 : d.text = none ∨ d.text = some "") :
    submitFileToOcr resp = Except.ok "" ∧
    ∀ ts1 ts2 : List String,
      mergeChunkTexts (ts1 ++ "" :: ts2) = mergeChunkTexts (ts1 ++ ts2) := by
  constructor
  · unfold submitFileToOcr
    rw [h2, h3, h1]
    simp only [if_true]
    rcases h4 with h4 | h4 <;> simp [h4, strOrElse]
  · intro ts1 ts2
    unfold mergeChunkTexts
    rw [List.filter_append, List.filter_append, List.filter_cons]
    simp

theorem submitFileToOcr_empty_text_witness :
    submitFileToOcr ⟨true, 200, "application/json", "", some ⟨none, none⟩⟩ =
      Except.ok "" ∧
    mergeChunkTexts ["a", "", "b"] = mergeChunkTexts ["a", "b"] :=
  ⟨(submitFileToOcr_empty_text ⟨true, 200, "application/json", "", some ⟨none, none⟩⟩
      ⟨none, none⟩ rfl (by decide) rfl (Or.inl rfl)).1,
   (submitFileToOcr_empty_text ⟨true, 200, "application/json", "", some ⟨none, none⟩⟩
      ⟨none, none⟩ rfl (by decide) rfl (Or.inl rfl)).2 ["a"] ["b"]⟩

/-! ### Claim theorems: the orchestrator -/

/-- C8: a PDF within both the 50 MiB byte budget and the 100-page budget
takes the fast path: the original file itself is the single submission
(identical bytes, no splitting), and the statuses show no splitting phase
— the boundary is called exactly once. -/
theorem processOCR_pdf_fast_path (o : Oracles) (f : SFile)
    (h1 : f.mime = "application/pdf") (h2 : f.size ≤ OCR_PDF_LIMIT_BYTES)
    (h3 : o.pageCount ≤ OCR_PDF_PAGE_LIMIT) :
    (processOCR o f).submissions = [f] ∧
    (processOCR o f).statuses = ["Preparing file...", "Processing PDF..."] := by
  have himg : strStarts f.mime "image/" = false := by
    rw [h1]
    decide
  unfold processOCR
  rw [himg]
  simp only [Bool.false_eq_true, if_false, h1, if_pos rfl,
    if_pos (And.intro h2 h3)]
  cases hs : submitFileToOcr (o.net 0) with
  | ok t => exact ⟨rfl, rfl⟩
  | error e => exact ⟨rfl, rfl⟩

theorem processOCR_pdf_fast_path_witness :
    (processOCR
        ⟨fun _ _ => 0, 5, fun _ _ => 0,
          fun _ => ⟨true, 200, "application/json", "", some ⟨some "t", none⟩⟩⟩
        ⟨"doc.pdf", 1000, "application/pdf"⟩).submissions =
      [⟨"doc.pdf", 1000, "application/pdf"⟩] ∧
    (processOCR
        ⟨fun _ _ => 0, 5, fun _ _ => 0,
          fun _ => ⟨true, 200, "application/json", "", some ⟨some "t", none⟩⟩⟩
        ⟨"doc.pdf", 1000, "application/pdf"⟩).statuses =
      ["Preparing file...", "Processing PDF..."] :=
  processOCR_pdf_fast_path
    ⟨fun _ _ => 0, 5, fun _ _ => 0,
      fun _ => ⟨true, 200, "application/json", "", some ⟨some "t", none⟩⟩⟩
    ⟨"doc.pdf", 1000, "application/pdf"⟩ rfl (by decide) (by decide)

/-- The stale run of the C4 counterexample: an image run that completes
with the text `"stale text"`. -/
def staleOracles : Oracles :=
  ⟨fun _ _ => 0, 0, fun _ _ => 0,
    fun _ => ⟨true, 200, "application/json", "", some ⟨some "stale text", none⟩⟩⟩

/-- C4 counterexample: after a new file (`b.png`) supersedes the run on
`a.png`, the stale run's completion still commits its text — the state
holds `"stale text"` although the active file differs from the run's file;
nothing is discarded, and no generation id exists to compare. -/
theorem staleRunCommits :
    (onDrop ⟨none, "", none⟩ ⟨"b.png", 6, "image/png"⟩).file =
      some ⟨"b.png", 6, "image/png"⟩ ∧
    (⟨"a.png", 5, "image/png"⟩ : SFile) ≠ ⟨"b.png", 6, "image/png"⟩ ∧
    (onDrop ⟨none, "", none⟩ ⟨"b.png", 6, "image/png"⟩).text = "" ∧
    (applyRunCompletion (onDrop ⟨none, "", none⟩ ⟨"b.png", 6, "image/png"⟩)
        (processOCR staleOracles ⟨"a.png", 5, "image/png"⟩)).text =
      "stale text" := by
  decide

/-- C4 (amended): run completions commit unconditionally. Whatever the
current state — in particular whatever file is currently active — a run
that finished with a text commits that text, and a run that failed commits
its error; there is no generation-id comparison and no discard. -/
theorem processOCR_commit_unconditional (o : Oracles) (g : SFile)
    (st : UIState) :
    (∀ t, (processOCR o g).text = some t →
      (applyRunCompletion st (processOCR o g)).text = t) ∧
    (∀ e, (processOCR o g).error = some e →
      (applyRunCompletion st (processOCR o g)).error = some e) := by
  constructor <;> intro x hx <;> simp [applyRunCompletion, hx]

theorem processOCR_commit_unconditional_witness :
    (applyRunCompletion (onDrop ⟨none, "", none⟩ ⟨"b.png", 6, "image/png"⟩)
        (processOCR staleOracles ⟨"a.png", 5, "image/png"⟩)).text =
      "stale text" :=
  (processOCR_commit_unconditional staleOracles ⟨"a.png", 5, "image/png"⟩
      (onDrop ⟨none, "", none⟩ ⟨"b.png", 6, "image/png"⟩)).1
    "stale text" (by decide)

/-- The oracles of the C3 counterexample: a 3-page PDF whose pages chunk
one per part, with the first submission succeeding and the second failing
with the boundary error `"boom"` under HTTP 500. -/
def chunkFailOracles : Oracles :=
  ⟨fun _ _ => 0, 3, witnessChunkSize,
    fun i => if i = 0 then ⟨true, 200, "application/json", "", some ⟨some "first", none⟩⟩
      else ⟨false, 500, "application/json", "", some ⟨none, some "boom"⟩⟩⟩

/-- C3 counterexample: chunk 2 of 3 fails; no merged text is committed,
but the error reported to the user is only the failing submission's own
message `"boom (HTTP 500)"` — it contains neither the word "chunk" nor the
digit 2, so it does not reference "chunk 2 of 3". The chunk index appears
only in the transient status message. -/
theorem chunkErrorLacksIndex :
    (processOCR chunkFailOracles ⟨"doc.pdf", 62914560, "application/pdf"⟩).text =
      none ∧
    (processOCR chunkFailOracles ⟨"doc.pdf", 62914560, "application/pdf"⟩).error =
      some "boom (HTTP 500)" ∧
    strIncludes "boom (HTTP 500)" "chunk" = false ∧
    strIncludes "boom (HTTP 500)" "2" = false ∧
    (processOCR chunkFailOracles ⟨"doc.pdf", 62914560, "application/pdf"⟩).statuses =
      ["Preparing file...", "Splitting PDF into OCR-safe chunks...",
        "Processing PDF chunk 1/3...", "Processing PDF chunk 2/3..."] := by
  decide

/-! ### The sequential chunk loop -/

theorem runChunks_ok_spec (net : Nat → HttpResponse) (total : Nat) :
    ∀ (files : List SFile) (i : Nat) (ts : List String),
      (runChunks net total i files).result = Except.ok ts →
      ts.length = files.length ∧
      ∀ j (hj : j < ts.length),
        submitFileToOcr (net (i + j)) = Except.ok (ts.get ⟨j, hj⟩) := by
  intro files
  induction files with
  | nil =>
    intro i ts h
    simp only [runChunks, Except.ok.injEq] at h
    subst h
    exact ⟨rfl, fun j hj => absurd hj (by simp)⟩
  | cons c rest ih =>
    intro i ts h
    simp only [runChunks] at h
    cases hs : submitFileToOcr (net i) with
    | error e => rw [hs] at h; simp at h
    | ok t =>
      rw [hs] at h
      simp only [] at h
      cases hr : (runChunks net total (i + 1) rest).result with
      | error e => rw [hr] at h; simp [Except.map] at h
      | ok ts' =>
        rw [hr] at h
        simp only [Except.map, Except.ok.injEq] at h
        subst h
        obtain ⟨hl, hj⟩ := ih (i + 1) ts' hr
        refine ⟨by simp [hl], ?_⟩
        intro j hjlt
        cases j with
        | zero => simpa using hs
        | succ j =>
          have hlt' : j < ts'.length := by simpa using hjlt
          have := hj j hlt'
          have hidx : i + (j + 1) = (i + 1) + j := by omega
          rw [hidx]
          simpa using this

theorem runChunks_error_spec (net : Nat → HttpResponse) (total : Nat) :
    ∀ (files : List SFile) (i j : Nat) (e : String),
      j < files.length →
      (∀ k, k < j → ∃ t, submitFileToOcr (net (i + k)) = Except.ok t) →
      submitFileToOcr (net (i + j)) = Except.error e →
      (runChunks net total i files).result = Except.error e ∧
      ∃ pre, (runChunks net total i files).statuses =
        pre ++ [chunkStatusMsg (i + j) total] := by
  intro files
  induction files with
  | nil =>
    intro i j e hj
    simp at hj
  | cons c rest ih =>
    intro i j e hj hOk hErr
    cases j with
    | zero =>
      rw [Nat.add_zero] at hErr
      simp only [runChunks]
      rw [hErr]
      exact ⟨rfl, [], by simp⟩
    | succ j =>
      obtain ⟨t, ht⟩ := hOk 0 (Nat.succ_pos j)
      rw [Nat.add_zero] at ht
      simp only [runChunks]
      rw [ht]
      have hErr' : submitFileToOcr (net ((i + 1) + j)) = Except.error e := by
        have hidx : (i + 1) + j = i + (j + 1) := by omega
        rw [hidx]
        exact hErr
      have hOk' : ∀ k, k < j →
          ∃ u, submitFileToOcr (net ((i + 1) + k)) = Except.ok u := by
        intro k hk
        have hidx : (i + 1) + k = i + (k + 1) := by omega
        rw [hidx]
        exact hOk (k + 1) (by omega)
      obtain ⟨hres, pre, hstat⟩ :=
        ih (i + 1) j e (by simpa using hj) hOk' hErr'
      constructor
      · simp [hres, Except.map]
      · refine ⟨chunkStatusMsg i total :: pre, ?_⟩
        have hidx : (i + 1) + j = i + (j + 1) := by omega
        simp only []
        rw [hstat, hidx]
        simp

/-- C7: on the PDF chunking path, when every chunk submission succeeds the
committed text is exactly the fragments in ascending chunk order, empty
fragments dropped, joined with a blank-line separator; the j-th fragment
is the j-th submission's text; and conversely a text is committed only
when the whole chunk loop succeeded. -/
theorem processOCR_merge_ordered (o : Oracles) (f : SFile)
    (chunks : List Chunk) (pc : Nat)
    (h1 : f.mime = "application/pdf")
    (h2 : ¬(f.size ≤ OCR_PDF_LIMIT_BYTES ∧ o.pageCount ≤ OCR_PDF_PAGE_LIMIT))
    (h3 : splitPdfForOcr o.chunkSize f.name o.pageCount =
      Except.ok (chunks, pc)) :
    (∀ ts, (runChunks o.net chunks.length 0 (chunkFiles chunks)).result =
        Except.ok ts →
      (processOCR o f).text = some (mergeChunkTexts ts) ∧
      ts.length = chunks.length ∧
      ∀ j (hj : j < ts.length),
        submitFileToOcr (o.net j) = Except.ok (ts.get ⟨j, hj⟩)) ∧
    (∀ m, (processOCR o f).text = some m →
      ∃ ts, (runChunks o.net chunks.length 0 (chunkFiles chunks)).result =
          Except.ok ts ∧ m = mergeChunkTexts ts) := by
  have himg : strStarts f.mime "image/" = false := by
    rw [h1]
    decide
  have hfiles : (chunkFiles chunks).length = chunks.length := by
    simp [chunkFiles]
  constructor
  · intro ts hts
    unfold processOCR
    rw [himg]
    simp only [Bool.false_eq_true, if_false, h1, if_pos rfl, if_neg h2, h3]
    rw [hts]
    obtain ⟨hl, hj⟩ := runChunks_ok_spec o.net chunks.length (chunkFiles chunks) 0 ts hts
    exact ⟨rfl, by rw [hl, hfiles], fun j hjlt => by simpa using hj j hjlt⟩
  · intro m hm
    unfold processOCR at hm
    rw [himg] at hm
    simp only [Bool.false_eq_true, if_false, h1, if_pos rfl, if_neg h2, h3] at hm
    cases hr : (runChunks o.net chunks.length 0 (chunkFiles chunks)).result with
    | error e => rw [hr] at hm; simp at hm
    | ok ts =>
      rw [hr] at hm
      simp only [if_true, Option.some.injEq] at hm
      exact ⟨ts, rfl, hm.symm⟩

/-- Oracles for the merge witness: a 2-chunk PDF whose submissions return
`"alpha"` and the empty string. -/
def mergeOracles : Oracles :=
  ⟨fun _ _ => 0, 2, witnessChunkSize,
    fun i => if i = 0 then ⟨true, 200, "application/json", "", some ⟨some "alpha", none⟩⟩
      else ⟨true, 200, "application/json", "", some ⟨some "", none⟩⟩⟩

theorem processOCR_merge_ordered_witness :
    (processOCR mergeOracles ⟨"doc.pdf", 62914560, "application/pdf"⟩).text =
      some (mergeChunkTexts ["alpha", ""]) ∧
    submitFileToOcr (mergeOracles.net 0) = Except.ok "alpha" := by
  have h := (processOCR_merge_ordered mergeOracles
      ⟨"doc.pdf", 62914560, "application/pdf"⟩
      [⟨0, 1, 1, 100, "doc.part-1.pdf"⟩, ⟨1, 2, 2, 100, "doc.part-2.pdf"⟩]
      2 rfl (by decide) rfl).1 ["alpha", ""] rfl
  exact ⟨h.1, h.2.2 0 (by decide)⟩

/-- C3 (amended): if the submission of chunk `j+1` of `n` fails and all
earlier chunks succeeded, no merged result is committed — the run's text
is `none` — and the error reported is the failing submission's own message
`e` (the boundary error plus HTTP status hint), not a message built from
the chunk index; the index and total appear in the last transient status
message, which the `finally` block clears when the run ends. -/
theorem processOCR_chunk_failure_halts (o : Oracles) (f : SFile)
    (chunks : List Chunk) (pc : Nat) (j : Nat) (e : String)
    (h1 : f.mime = "application/pdf")
    (h2 : ¬(f.size ≤ OCR_PDF_LIMIT_BYTES ∧ o.pageCount ≤ OCR_PDF_PAGE_LIMIT))
    (h3 : splitPdfForOcr o.chunkSize f.name o.pageCount =
      Except.ok (chunks, pc))
    (hj : j < chunks.length)
    (hOk : ∀ k, k < j → ∃ t, submitFileToOcr (o.net k) = Except.ok t)
    (hErr : submitFileToOcr (o.net j) = Except.error e) :
    (processOCR o f).text = none ∧
    (processOCR o f).error = some e ∧
    ∃ pre, (processOCR o f).statuses =
      pre ++ [chunkStatusMsg j chunks.length] := by
  have himg : strStarts f.mime "image/" = false := by
    rw [h1]
    decide
  have hflen : j < (chunkFiles chunks).length := by
    simpa [chunkFiles] using hj
  have hOk0 : ∀ k, k < j →
      ∃ t, submitFileToOcr (o.net (0 + k)) = Except.ok t := by
    intro k hk
    simpa using hOk k hk
  have hErr0 : submitFileToOcr (o.net (0 + j)) = Except.error e := by
    simpa using hErr
  obtain ⟨hres, pre, hstat⟩ := runChunks_error_spec o.net chunks.length
    (chunkFiles chunks) 0 j e hflen hOk0 hErr0
  have hstat' : (runChunks o.net chunks.length 0 (chunkFiles chunks)).statuses =
      pre ++ [chunkStatusMsg j chunks.length] := by
    simpa using hstat
  unfold processOCR
  rw [himg]
  simp only [Bool.false_eq_true, if_false, h1, if_pos rfl, if_neg h2, h3,
    if_true]
  rw [hres, hstat']
  refine ⟨rfl, rfl, ?_⟩
  refine ⟨["Preparing file...", "Splitting PDF into OCR-safe chunks..."] ++
    (if OCR_PDF_PAGE_LIMIT < pc then
      ["PDF has " ++ toString pc ++ " pages. Processing " ++
        toString chunks.length ++ " chunks..."]
    else []) ++ pre, ?_⟩
  simp

theorem processOCR_chunk_failure_halts_witness :
    (processOCR chunkFailOracles
      ⟨"doc.pdf", 62914560, "application/pdf"⟩).text = none ∧
    (processOCR chunkFailOracles
      ⟨"doc.pdf", 62914560, "application/pdf"⟩).error =
      some "boom (HTTP 500)" := by
  have h := processOCR_chunk_failure_halts chunkFailOracles
    ⟨"doc.pdf", 62914560, "application/pdf"⟩
    [⟨0, 1, 1, 100, "doc.part-1.pdf"⟩, ⟨1, 2, 2, 100, "doc.part-2.pdf"⟩,
      ⟨2, 3, 3, 100, "doc.part-3.pdf"⟩]
    3 1 "boom (HTTP 500)" rfl (by decide) rfl (by decide)
    (fun k hk => ⟨"first", by
      have hk0 : k = 0 := by omega
      rw [hk0]
      rfl⟩)
    rfl
  exact ⟨h.1, h.2.1⟩

/-! ### Claim theorems: the compression search order -/

theorem qualities_sorted : List.Pairwise (fun a b => b < a) qualities := by
  simp only [qualities, List.pairwise_cons, List.mem_cons, List.not_mem_nil]
  norm_num

theorem scales_sorted : List.Pairwise (fun a b => b < a) scales := by
  simp only [scales, List.pairwise_cons, List.mem_cons, List.not_mem_nil]
  norm_num

theorem findQuality_some_spec (enc : ℚ → ℚ → Nat) (s : ℚ) :
    ∀ (qs : List ℚ) (q : ℚ), List.Pairwise (fun a b => b < a) qs →
      findQuality enc s qs = some q →
      q ∈ qs ∧ enc s q ≤ OCR_IMAGE_LIMIT_BYTES ∧
      ∀ q' ∈ qs, enc s q' ≤ OCR_IMAGE_LIMIT_BYTES → q' ≤ q := by
  intro qs
  induction qs with
  | nil =>
    intro q _ h
    simp [findQuality] at h
  | cons q0 rest ih =>
    intro q hsorted h
    rw [List.pairwise_cons] at hsorted
    simp only [findQuality] at h
    split at h
    case isTrue hfit =>
      injection h with h
      subst h
      refine ⟨List.mem_cons_self _ _, hfit, ?_⟩
      intro q' hq' _
      rcases List.mem_cons.mp hq' with hq' | hq'
      · exact le_of_eq hq'
      · exact le_of_lt (hsorted.1 q' hq')
    case isFalse hfit =>
      obtain ⟨hmem, hle, hmax⟩ := ih q hsorted.2 h
      refine ⟨List.mem_cons_of_mem _ hmem, hle, ?_⟩
      intro q' hq' hfit'
      rcases List.mem_cons.mp hq' with hq' | hq'
      · exact absurd (hq' ▸ hfit') hfit
      · exact hmax q' hq' hfit'

theorem findQuality_none_spec (enc : ℚ → ℚ → Nat) (s : ℚ) :
    ∀ (qs : List ℚ), findQuality enc s qs = none →
      ∀ q ∈ qs, OCR_IMAGE_LIMIT_BYTES < enc s q := by
  intro qs
  induction qs with
  | nil => intro _ q hq; simp at hq
  | cons q0 rest ih =>
    intro h q hq
    simp only [findQuality] at h
    split at h
    case isTrue => exact absurd h (by simp)
    case isFalse hfit =>
      rcases List.mem_cons.mp hq with hq | hq
      · exact hq ▸ Nat.lt_of_not_le hfit
      · exact ih h q hq

theorem findCombo_some_spec (enc : ℚ → ℚ → Nat) :
    ∀ (ss : List ℚ) (s q : ℚ), List.Pairwise (fun a b => b < a) ss →
      findCombo enc ss = some (s, q) →
      s ∈ ss ∧ q ∈ qualities ∧ enc s q ≤ OCR_IMAGE_LIMIT_BYTES ∧
      ∀ s' ∈ ss, ∀ q' ∈ qualities, enc s' q' ≤ OCR_IMAGE_LIMIT_BYTES →
        s' < s ∨ (s' = s ∧ q' ≤ q) := by
  intro ss
  induction ss with
  | nil =>
    intro s q _ h
    simp [findCombo] at h
  | cons s0 rest ih =>
    intro s q hsorted h
    rw [List.pairwise_cons] at hsorted
    simp only [findCombo] at h
    cases hq0 : findQuality enc s0 qualities with
    | some q0 =>
      rw [hq0] at h
      simp only [Option.some.injEq, Prod.mk.injEq] at h
      obtain ⟨hs, hq⟩ := h
      subst hs
      subst hq
      obtain ⟨hqmem, hqfit, hqmax⟩ :=
        findQuality_some_spec enc s0 qualities q0 qualities_sorted hq0
      refine ⟨List.mem_cons_self _ _, hqmem, hqfit, ?_⟩
      intro s' hs' q' hq' hfit'
      rcases List.mem_cons.mp hs' with hs' | hs'
      · exact Or.inr ⟨hs', hqmax q' hq' (hs' ▸ hfit')⟩
      · exact Or.inl (hsorted.1 s' hs')
    | none =>
      rw [hq0] at h
      obtain ⟨hmem, hqmem, hfit, hmax⟩ := ih s q hsorted.2 h
      refine ⟨List.mem_cons_of_mem _ hmem, hqmem, hfit, ?_⟩
      intro s' hs' q' hq' hfit'
      rcases List.mem_cons.mp hs' with hs' | hs'
      · exact absurd hfit' (Nat.not_le_of_lt (hs' ▸ findQuality_none_spec enc s0 qualities hq0 q' hq'))
      · exact hmax s' hs' q' hq' hfit'

theorem findCombo_none_spec (enc : ℚ → ℚ → Nat) :
    ∀ (ss : List ℚ), findCombo enc ss = none →
      ∀ s ∈ ss, ∀ q ∈ qualities, OCR_IMAGE_LIMIT_BYTES < enc s q := by
  intro ss
  induction ss with
  | nil => intro _ s hs; simp at hs
  | cons s0 rest ih =>
    intro h s hs q hq
    simp only [findCombo] at h
    cases hq0 : findQuality enc s0 qualities with
    | some q0 => rw [hq0] at h; simp at h
    | none =>
      rw [hq0] at h
      rcases List.mem_cons.mp hs with hs | hs
      · exact hs ▸ findQuality_none_spec enc s0 qualities hq0 q hq
      · exact ih h s hs q hq

/-- C5: for an image over the 10 MiB budget, `compressImageForOcr` walks
scales `[1, 0.9, 0.8, 0.7, 0.6]` in the outer loop and qualities
`[0.9, 0.8, 0.7, 0.6, 0.5]` in the inner loop and returns the encode of
the first fitting combination, which (both lists being strictly
descending) is the highest-fidelity fitting one — maximum scale first,
then maximum quality; if no combination fits, the operation fails with the
compression-exhausted message. -/
theorem compressImageForOcr_first_fit (enc : ℚ → ℚ → Nat) (f : SFile)
    (h : OCR_IMAGE_LIMIT_BYTES < f.size) :
    (∀ g, compressImageForOcr enc f = Except.ok g →
      ∃ s, s ∈ scales ∧ ∃ q, q ∈ qualities ∧
        enc s q ≤ OCR_IMAGE_LIMIT_BYTES ∧
        g = ⟨replaceExtension f.name "jpg", enc s q, "image/jpeg"⟩ ∧
        ∀ s' ∈ scales, ∀ q' ∈ qualities,
          enc s' q' ≤ OCR_IMAGE_LIMIT_BYTES → s' < s ∨ (s' = s ∧ q' ≤ q)) ∧
    ((∀ s ∈ scales, ∀ q ∈ qualities, OCR_IMAGE_LIMIT_BYTES < enc s q) →
      compressImageForOcr enc f = Except.error compressFailMessage) := by
  have hnot : ¬ f.size ≤ OCR_IMAGE_LIMIT_BYTES := Nat.not_le_of_lt h
  constructor
  · intro g hg
    unfold compressImageForOcr at hg
    rw [if_neg hnot] at hg
    cases hc : findCombo enc scales with
    | none => rw [hc] at hg; simp at hg
    | some p =>
      obtain ⟨s, q⟩ := p
      rw [hc] at hg
      simp only [Except.ok.injEq] at hg
      obtain ⟨hs, hq, hfit, hmax⟩ :=
        findCombo_some_spec enc scales s q scales_sorted hc
      exact ⟨s, hs, q, hq, hfit, hg.symm, hmax⟩
  · intro hall
    unfold compressImageForOcr
    rw [if_neg hnot]
    cases hc : findCombo enc scales with
    | none => rfl
    | some p =>
      obtain ⟨s, q⟩ := p
      obtain ⟨hs, hq, hfit, _⟩ :=
        findCombo_some_spec enc scales s q scales_sorted hc
      exact absurd hfit (Nat.not_le_of_lt (hall s hs q hq))

theorem compressImageForOcr_first_fit_witness :
    compressImageForOcr (fun _ _ => 99999999)
        ⟨"img.png", 20000000, "image/png"⟩ =
      Except.error compressFailMessage :=
  (compressImageForOcr_first_fit (fun _ _ => 99999999)
      ⟨"img.png", 20000000, "image/png"⟩ (by decide)).2 (by decide)
